import Mathlib

/-!
Shallow embedding of memthol's allocation data store
(`src/libs/charts/src/data.rs`) and of the per-client socket handler
(`src/src/socket.rs`), with theorems settling the spec's claims about them.
-/

/-- Timestamps (`time::SinceStart`): only ordered comparison is used by the
embedded code, so they are modelled as naturals. -/
abbrev SinceStart := Nat

/-- Allocation UIDs (`AllocUid`), modelled as naturals. -/
abbrev AllocUid := Nat

/-- Modelled from the spec: the repository's `Map` type is declared outside
`src/` (in the prelude crate). The spec calls it an "ordered mapping" and has
`iter_dead_since` visit `tod_map` "in reverse timestamp order", i.e. a
key-sorted (B-tree) map. Modelled as an association list over `Nat` keys; the
key-sortedness the real structure maintains by construction is the
well-formedness predicate `Map.WF` below. -/
abbrev Map (β : Type) := List (Nat × β)

/-- The empty map (`Map::new` / `Map::clear`). -/
def Map.empty {β : Type} : Map β := []

/-- Key-sortedness: the representation invariant a B-tree map maintains by
construction. -/
def Map.WF {β : Type} (m : Map β) : Prop :=
  List.Pairwise (· < ·) (m.map Prod.fst)

instance {β : Type} (m : Map β) : Decidable m.WF := by
  unfold Map.WF; infer_instance

/-- Lookup (`Map::get`). -/
def Map.find? {β : Type} (k : Nat) : Map β → Option β
  | [] => none
  | (k', v) :: rest => if k = k' then some v else Map.find? k rest

/-- Insertion in key order (`Map::insert`): returns the previous value bound to
the key, if any; an existing binding is replaced in place. -/
def Map.insert {β : Type} (k : Nat) (v : β) : Map β → Option β × Map β
  | [] => (none, [(k, v)])
  | (k', v') :: rest =>
    if k < k' then (none, (k, v) :: (k', v') :: rest)
    else if k = k' then (some v', (k, v) :: rest)
    else
      let r := Map.insert k v rest
      (r.1, (k', v') :: r.2)

/-- One allocation record (`Alloc`, declared outside `src/`). Modelled from the
spec: `uid`, `toc` (time-of-creation), `tod` (optional time-of-death; absent
while live); the profiling metadata the spec leaves undetailed is omitted. -/
structure Alloc where
  uid : AllocUid
  toc : SinceStart
  tod : Option SinceStart
deriving DecidableEq, Repr

/-- Modelled from the spec: `Alloc::set_tod` (declared outside `src/`) sets the
time-of-death, which may happen at most once: it fails when `tod` is already
set and leaves the record unchanged. -/
def Alloc.set_tod (a : Alloc) (tod : SinceStart) : Option Alloc :=
  match a.tod with
  | some _ => none
  | none => some { a with tod := some tod }

/-- Modelled from the spec: `AllocInit` (declared outside `src/`) carries the
profiling run's start time. -/
structure AllocInit where
  start_time : Nat
deriving DecidableEq

/-- `AllocUidSet`: a set of uids sharing a time-of-death; modelled as the list
of its elements in insertion order. -/
abbrev AllocUidSet := List AllocUid

/-- Set insertion (`AllocUidSet::insert`): returns whether the uid was new,
together with the updated set. -/
def AllocUidSet.insert (uid : AllocUid) (s : AllocUidSet) : Bool × AllocUidSet :=
  if uid ∈ s then (false, s) else (true, s ++ [uid])

/-- One incremental batch (`AllocDiff`, declared outside `src/`). Modelled from
the spec: a timestamp, the newly observed allocations, and `(uid,
approximate-tod)` death notifications. -/
structure AllocDiff where
  time : SinceStart
  new : List Alloc
  dead : List (AllocUid × SinceStart)
deriving DecidableEq

/-- The distinct failures of `Data::add_diff`, in the order the source raises
them: the three `allocation UID collision` bails, the `set_tod` failure (a
duplicate death registration, a collision in the spec's taxonomy), the
`cannot register death for unknown allocation UID` bail (a lookup error), and
the debug-build invariant-check failure. -/
inductive AddErr where
  | collisionNewTod
  | collisionNewUid
  | collisionDead
  | todAlreadySet
  | unknownDead
  | invariantViolated
deriving DecidableEq, Repr

/-- Collision errors per the spec's error taxonomy: duplicate `uid` on
insertion and duplicate death registration. -/
def AddErr.isCollision : AddErr → Bool
  | .collisionNewTod => true
  | .collisionNewUid => true
  | .collisionDead => true
  | .todAlreadySet => true
  | .unknownDead => false
  | .invariantViolated => false

/-- Lookup errors per the spec's error taxonomy. -/
def AddErr.isLookup : AddErr → Bool
  | .unknownDead => true
  | _ => false

/-- The global store (`Data`). The error log entries are opaque (the embedded
code never inspects them), so they are modelled as naturals. -/
structure Data where
  init : Option AllocInit
  uid_map : Map Alloc
  tod_map : Map AllocUidSet
  errors : List Nat
  current_time : SinceStart
deriving DecidableEq

/-- `Data::new`. -/
def Data.new : Data :=
  { init := none, uid_map := Map.empty, tod_map := Map.empty, errors := [],
    current_time := 0 }

/-- The `toc` fields of `uid_map` in iteration order. -/
def Data.tocs (d : Data) : List SinceStart :=
  d.uid_map.map fun kv => kv.2.toc

/-- The adjacent-pair scan of `invariants::uid_order_is_toc_order`: fails as
soon as some allocation's `toc` is below its predecessor's. -/
def tocNonDecreasing : List SinceStart → Bool
  | [] => true
  | [_] => true
  | a :: b :: rest => decide (a ≤ b) && tocNonDecreasing (b :: rest)

/-- `invariants::uid_order_is_toc_order`. -/
def uid_order_is_toc_order (d : Data) : Bool :=
  tocNonDecreasing d.tocs

/-- `Data::check_invariants`, in its debug-build form (the release build checks
nothing and always succeeds). -/
def Data.check_invariants (d : Data) : Bool :=
  uid_order_is_toc_order d

/-- `Data::reset`: replaces `init`, clears both maps, zeroes `current_time`,
touches nothing else (in particular not `errors`), and cannot fail. -/
def Data.reset (d : Data) (i : AllocInit) : Data :=
  { d with init := some i, uid_map := Map.empty, tod_map := Map.empty,
           current_time := 0 }

/-- `Data::get_alloc` (absence of the uid is the failure case). -/
def Data.get_alloc (d : Data) (uid : AllocUid) : Option Alloc :=
  Map.find? uid d.uid_map

/-- The body of `Data::iter_new_since`: reverse iteration over `uid_map`,
breaking at the first allocation with `toc <= time`; returns the visited
allocations in visit order. -/
def iterNewSinceAux (time : SinceStart) : List (Nat × Alloc) → List Alloc
  | [] => []
  | (_, a) :: rest =>
    if a.toc ≤ time then [] else a :: iterNewSinceAux time rest

/-- `Data::iter_new_since`, with the visitor made explicit as the list of
visited allocations. -/
def Data.iter_new_since (d : Data) (time : SinceStart) : List Alloc :=
  iterNewSinceAux time d.uid_map.reverse

/-- The body of `Data::iter_dead_since`: reverse iteration over `tod_map`,
breaking at the first entry with `tod <= time`; returns the visited
`(uid set, timestamp)` pairs in visit order. -/
def iterDeadSinceAux (time : SinceStart) :
    List (Nat × AllocUidSet) → List (AllocUidSet × SinceStart)
  | [] => []
  | (tod, s) :: rest =>
    if tod ≤ time then [] else (s, tod) :: iterDeadSinceAux time rest

/-- `Data::iter_dead_since`, with the visitor made explicit as the list of
visited `(uid set, timestamp)` pairs. -/
def Data.iter_dead_since (d : Data) (time : SinceStart) :
    List (AllocUidSet × SinceStart) :=
  iterDeadSinceAux time d.tod_map.reverse

/-- Forcing an allocation's timestamps to the diff's time, as in the head of
the `diff.new` loop of `Data::add_diff`. -/
def forceTimes (time : SinceStart) (a : Alloc) : Alloc :=
  { a with toc := time, tod := a.tod.map fun _ => time }

/-- `Data::tod_map_get_mut(t).insert(uid)`: `entry(t).or_insert_with(empty)`
followed by the set insertion; returns whether the uid was new under that
timestamp, together with the updated map. -/
def todMapInsert (m : Map AllocUidSet) (t : SinceStart) (uid : AllocUid) :
    Bool × Map AllocUidSet :=
  let s := (Map.find? t m).getD []
  let r := AllocUidSet.insert uid s
  (r.1, (Map.insert t r.2 m).2)

/-- The `diff.new` loop of `Data::add_diff`. Each allocation has its times
forced to the diff's, is registered in `tod_map` when it carries a `tod`
(bailing on a collision there), and is inserted in `uid_map` (bailing when the
uid was already bound). A bail leaves the mutations already applied in place,
as the Rust `&mut self` loop does. -/
def addNews (time : SinceStart) : Data → List Alloc → Data × Option AddErr
  | d, [] => (d, none)
  | d, a :: rest =>
    let alloc := forceTimes time a
    let uid := alloc.uid
    let step :=
      match alloc.tod with
      | some tod =>
        let r := todMapInsert d.tod_map tod uid
        ({ d with tod_map := r.2 },
          if r.1 then none else some AddErr.collisionNewTod)
      | none => (d, none)
    match step with
    | (d, some e) => (d, some e)
    | (d, none) =>
      let r := Map.insert uid alloc d.uid_map
      let d := { d with uid_map := r.2 }
      if r.1.isSome then (d, some AddErr.collisionNewUid)
      else addNews time d rest

/-- The `diff.dead` loop of `Data::add_diff`. The time-of-death is forced to
the diff's time, the uid is registered in `tod_map` (bailing on a collision),
and the matching record's `tod` is set (bailing when the uid is unknown, or
when `set_tod` refuses a second death). A bail leaves the mutations already
applied in place. -/
def addDeads (time : SinceStart) :
    Data → List (AllocUid × SinceStart) → Data × Option AddErr
  | d, [] => (d, none)
  | d, (uid, _) :: rest =>
    let tod := time
    let r := todMapInsert d.tod_map tod uid
    let d := { d with tod_map := r.2 }
    if !r.1 then (d, some AddErr.collisionDead)
    else
      match Map.find? uid d.uid_map with
      | some alloc =>
        match alloc.set_tod tod with
        | some alloc' =>
          let d := { d with uid_map := (Map.insert uid alloc' d.uid_map).2 }
          addDeads time d rest
        | none => (d, some AddErr.todAlreadySet)
      | none => (d, some AddErr.unknownDead)

/-- `Data::add_diff` (debug build, where `check_invariants` is active): sets
`current_time` to the diff's time first, then runs the `new` loop, the `dead`
loop, and the invariant check. The returned state is the store as the call
leaves it, also on failure. -/
def Data.add_diff (d : Data) (diff : AllocDiff) : Data × Option AddErr :=
  let d := { d with current_time := diff.time }
  match addNews diff.time d diff.new with
  | (d, some e) => (d, some e)
  | (d, none) =>
    match addDeads diff.time d diff.dead with
    | (d, some e) => (d, some e)
    | (d, none) =>
      if d.check_invariants then (d, none)
      else (d, some AddErr.invariantViolated)

/-- A sequence of `add_diff` calls threading the store through, as the
ingestion loop does (a failed diff is reported and skipped, the store keeps
the mutations applied before the bail): the trace of per-call results. -/
def addDiffTrace : Data → List AllocDiff → List (Data × Option AddErr)
  | _, [] => []
  | d, diff :: rest =>
    let r := d.add_diff diff
    r :: addDiffTrace r.1 rest

/-- A concrete store used by concrete instantiations below: two live
allocations (tocs 3 and 5) and one death recorded at time 4. -/
def sampleStore : Data :=
  { init := none, uid_map := [(1, ⟨1, 3, none⟩), (2, ⟨2, 5, none⟩)],
    tod_map := [(4, [1])], errors := [], current_time := 5 }

/-- A concrete store holding one allocation that already died at time 4. -/
def deadStore : Data :=
  { init := none, uid_map := [(1, ⟨1, 1, some 4⟩)], tod_map := [(4, [1])],
    errors := [], current_time := 4 }

/-- A concrete store obtained by inserting allocation uid 1 at time 1 into the
fresh store. -/
def dupStore : Data :=
  (Data.new.add_diff ⟨1, [⟨1, 0, none⟩], []⟩).1

/-!
Per-client socket handler (`src/src/socket.rs`). The websocket transport and
the JSON codec are external collaborators; the inbound side is modelled as the
finite list of frames the `incoming_messages` iterator delivers, with each
data frame carrying its decode outcome (`none` = decode failure) and payloads
left opaque (naturals).
-/

/-- One inbound frame as `Handler::receive_messages` sees it: a text or binary
data frame carrying its decode outcome, a pong (the render-now control
signal), a close frame with its optional close data, a ping (unexpected), or
a transport failure from the iterator. -/
inductive Frame where
  | text (m : Option Nat)
  | binary (m : Option Nat)
  | pong
  | close (data : Option Nat)
  | ping
  | transportFailure
deriving DecidableEq

/-- The failures of `Handler::receive_messages`, each fatal to the session. -/
inductive RecvErr where
  | decodeFailure
  | unexpectedPing
  | transportFailure
deriving DecidableEq

/-- Modelled from the spec: the handler's private inbound buffer (`FromClient`,
declared outside `src/`): the buffered application messages, the closed flag,
and the recorded close data. -/
structure FromClient where
  buf : List Nat
  closed : Bool
  close_data : Option Nat
deriving DecidableEq

/-- `FromClient::new`. -/
def FromClient.new : FromClient :=
  { buf := [], closed := false, close_data := none }

/-- `FromClient::push`: buffers one decoded application message. -/
def FromClient.push (fc : FromClient) (m : Nat) : FromClient :=
  { fc with buf := fc.buf ++ [m] }

/-- `FromClient::close`: marks the buffer closed. -/
def FromClient.close (fc : FromClient) : FromClient :=
  { fc with closed := true }

/-- `FromClient::set_close_data`. -/
def FromClient.set_close_data (fc : FromClient) (d : Option Nat) : FromClient :=
  { fc with close_data := d }

/-- `Handler::receive_messages`: drains inbound frames, buffering decoded data
messages, until a pong (stop draining and render now), a close frame (record
the close and stop), or the end of the available input; a decode failure, an
unexpected ping, or a transport failure aborts the session with an error. -/
def receive_messages (fc : FromClient) : List Frame → Except RecvErr FromClient
  | [] => .ok fc
  | f :: rest =>
    match f with
    | .text none => .error .decodeFailure
    | .text (some m) => receive_messages (fc.push m) rest
    | .binary none => .error .decodeFailure
    | .binary (some m) => receive_messages (fc.push m) rest
    | .pong => .ok fc
    | .close cd => .ok ((fc.close).set_close_data cd)
    | .ping => .error .unexpectedPing
    | .transportFailure => .error .transportFailure

/-- The claim's termination condition, following the spec's words: the receive
step returns control to the run loop exactly when, scanning the stream past
successfully decoded data frames only, a render-now pong arrives, a close
signal arrives, or the available input is exhausted. -/
def recvReturnsControl : List Frame → Bool
  | [] => true
  | .pong :: _ => true
  | .close _ :: _ => true
  | .text (some _) :: rest => recvReturnsControl rest
  | .binary (some _) :: rest => recvReturnsControl rest
  | _ => false

/-- `Handler::frame_span`: the minimum time between two rendering steps, in
milliseconds. -/
def frame_span : Nat := 1000

/-- Timing skeleton of the `Streaming` loop of `Handler::internal_run`: at each
iteration the clock reads `now`; if `now <= last_frame + frame_span` the
thread sleeps until `last_frame + frame_span` and sends then, otherwise it
sends at `now`. `set_last_frame` is called once before the loop and never
inside it, so `last_frame` stays fixed across iterations; the result is the
list of send instants. -/
def renderTimes (last_frame : Nat) : List Nat → List Nat
  | [] => []
  | now :: rest =>
    (if now ≤ last_frame + frame_span then last_frame + frame_span else now)
      :: renderTimes last_frame rest

/-! Supporting lemmas. -/

theorem Map.find?_eq_none {β : Type} (k : Nat) (l : Map β)
    (h : k ∉ l.map Prod.fst) : Map.find? k l = none := by
  induction l with
  | nil => rfl
  | cons kv rest ih =>
    simp only [List.map_cons, List.mem_cons, not_or] at h
    simpa [Map.find?, h.1] using ih h.2

theorem Map.insert_mem_keys {β : Type} (k : Nat) (v : β) (l : Map β)
    (x : Nat) (hx : x ∈ (Map.insert k v l).2.map Prod.fst) :
    x = k ∨ x ∈ l.map Prod.fst := by
  induction l with
  | nil => simpa [Map.insert] using hx
  | cons kv rest ih =>
    obtain ⟨k', v'⟩ := kv
    by_cases h1 : k < k'
    · simpa [Map.insert, h1] using hx
    · by_cases h2 : k = k'
      · subst h2
        have hres : (Map.insert k v ((k, v') :: rest)).2 = (k, v) :: rest := by
          simp [Map.insert]
        rw [hres, List.map_cons, List.mem_cons] at hx
        rcases hx with hx | hx
        · exact Or.inl hx
        · exact Or.inr (List.mem_cons_of_mem _ hx)
      · simp only [Map.insert, h1, if_false, h2, if_false, List.map_cons,
          List.mem_cons] at hx
        rcases hx with hx | hx
        · exact Or.inr (by simp [hx])
        · rcases ih hx with hx | hx
          · exact Or.inl hx
          · exact Or.inr (by simp [hx])

theorem Map.insert_WF {β : Type} (k : Nat) (v : β) (l : Map β) (h : l.WF) :
    (Map.insert k v l).2.WF := by
  induction l with
  | nil => simp [Map.insert, Map.WF]
  | cons kv rest ih =>
    obtain ⟨k', v'⟩ := kv
    rw [Map.WF, List.map_cons, List.pairwise_cons] at h
    by_cases h1 : k < k'
    · have hres : (Map.insert k v ((k', v') :: rest)).2
          = (k, v) :: (k', v') :: rest := by
        simp [Map.insert, h1]
      rw [hres, Map.WF, List.map_cons, List.map_cons, List.pairwise_cons,
        List.pairwise_cons]
      refine ⟨?_, h.1, h.2⟩
      intro y hy
      rw [List.mem_cons] at hy
      rcases hy with hy | hy
      · omega
      · exact Nat.lt_trans h1 (h.1 y hy)
    · by_cases h2 : k = k'
      · subst h2
        have hres : (Map.insert k v ((k, v') :: rest)).2 = (k, v) :: rest := by
          simp [Map.insert, h1]
        rw [hres, Map.WF, List.map_cons, List.pairwise_cons]
        exact h
      · have hres : (Map.insert k v ((k', v') :: rest)).2
            = (k', v') :: (Map.insert k v rest).2 := by
          simp [Map.insert, h1, h2]
        rw [hres, Map.WF, List.map_cons, List.pairwise_cons]
        refine ⟨?_, ih h.2⟩
        intro y hy
        rcases Map.insert_mem_keys k v rest y hy with hy | hy
        · omega
        · exact h.1 y hy

theorem Map.insert_fst {β : Type} (k : Nat) (v : β) (l : Map β) (h : l.WF) :
    (Map.insert k v l).1 = Map.find? k l := by
  induction l with
  | nil => rfl
  | cons kv rest ih =>
    obtain ⟨k', v'⟩ := kv
    simp only [Map.WF, List.map_cons, List.pairwise_cons] at h
    by_cases h1 : k < k'
    · have hk : k ∉ rest.map Prod.fst := by
        intro hk
        have := h.1 k hk
        omega
      have hne : ¬k = k' := by omega
      simp [Map.insert, h1, Map.find?, hne, Map.find?_eq_none k rest hk]
    · by_cases h2 : k = k'
      · simp [Map.insert, h1, h2, Map.find?]
      · simp [Map.insert, h1, h2, Map.find?, ih h.2]

theorem Map.find?_insert_self {β : Type} (k : Nat) (v : β) (l : Map β) :
    Map.find? k (Map.insert k v l).2 = some v := by
  induction l with
  | nil => simp [Map.insert, Map.find?]
  | cons kv rest ih =>
    obtain ⟨k', v'⟩ := kv
    by_cases h1 : k < k'
    · simp [Map.insert, h1, Map.find?]
    · by_cases h2 : k = k'
      · simp [Map.insert, h1, h2, Map.find?]
      · simp [Map.insert, h1, h2, Map.find?, ih]

theorem Map.find?_insert_other {β : Type} (k₀ k : Nat) (v : β) (l : Map β)
    (hne : k₀ ≠ k) : Map.find? k₀ (Map.insert k v l).2 = Map.find? k₀ l := by
  induction l with
  | nil => simp [Map.insert, Map.find?, hne]
  | cons kv rest ih =>
    obtain ⟨k', v'⟩ := kv
    by_cases h1 : k < k'
    · simp [Map.insert, h1, Map.find?, hne]
    · by_cases h2 : k = k'
      · subst h2
        simp [Map.insert, h1, Map.find?, hne]
      · by_cases h3 : k₀ = k'
        · simp [Map.insert, h1, h2, Map.find?, h3]
        · simp [Map.insert, h1, h2, Map.find?, h3, ih]

theorem tocNonDecreasing_iff (l : List Nat) :
    tocNonDecreasing l = true ↔ l.Pairwise (· ≤ ·) := by
  rw [← List.chain'_iff_pairwise]
  induction l with
  | nil => simp [tocNonDecreasing]
  | cons a l ih =>
    cases l with
    | nil => simp [tocNonDecreasing]
    | cons b m =>
      rw [List.chain'_cons,
        show tocNonDecreasing (a :: b :: m)
          = (decide (a ≤ b) && tocNonDecreasing (b :: m)) from rfl,
        Bool.and_eq_true, decide_eq_true_eq, ih]

theorem check_invariants_iff (d : Data) :
    d.check_invariants = true ↔ d.tocs.Pairwise (· ≤ ·) :=
  tocNonDecreasing_iff d.tocs

theorem iterNewSinceAux_eq_takeWhile (t : SinceStart) (l : List (Nat × Alloc)) :
    iterNewSinceAux t l
      = (l.map Prod.snd).takeWhile fun a => decide (t < a.toc) := by
  induction l with
  | nil => rfl
  | cons kv rest ih =>
    obtain ⟨k, a⟩ := kv
    by_cases h : a.toc ≤ t
    · simp [iterNewSinceAux, h, List.takeWhile_cons, Nat.not_lt.mpr h]
    · simp [iterNewSinceAux, h, List.takeWhile_cons, Nat.lt_of_not_le h, ih]

theorem iterDeadSinceAux_eq_takeWhile (t : SinceStart)
    (l : List (Nat × AllocUidSet)) :
    iterDeadSinceAux t l
      = ((l.takeWhile fun kv => decide (t < kv.1)).map
          fun kv => (kv.2, kv.1)) := by
  induction l with
  | nil => rfl
  | cons kv rest ih =>
    obtain ⟨tod, s⟩ := kv
    by_cases h : tod ≤ t
    · simp [iterDeadSinceAux, h, List.takeWhile_cons, Nat.not_lt.mpr h]
    · simp [iterDeadSinceAux, h, List.takeWhile_cons, Nat.lt_of_not_le h, ih]

theorem takeWhile_eq_filter_of_antitone {α : Type} (f : α → Nat) (t : Nat)
    (l : List α) (h : l.Pairwise fun x y => f y ≤ f x) :
    (l.takeWhile fun a => decide (t < f a))
      = l.filter fun a => decide (t < f a) := by
  induction l with
  | nil => rfl
  | cons a rest ih =>
    simp only [List.pairwise_cons] at h
    by_cases ha : t < f a
    · simp [List.takeWhile_cons, List.filter_cons, ha, ih h.2]
    · have hrest : (rest.filter fun a => decide (t < f a)) = [] := by
        refine List.filter_eq_nil_iff.mpr ?_
        intro x hx
        have := h.1 x hx
        simp only [decide_eq_true_eq]
        omega
      simp [List.takeWhile_cons, List.filter_cons, ha, hrest]

theorem addNews_current_time (time : SinceStart) (d : Data) (l : List Alloc) :
    ((addNews time d l).1).current_time = d.current_time := by
  induction l generalizing d with
  | nil => rfl
  | cons a rest ih =>
    simp only [addNews]
    cases htod : (forceTimes time a).tod with
    | some tod =>
      simp only [htod]
      cases hnew : (todMapInsert d.tod_map tod (forceTimes time a).uid).1 with
      | false => simp
      | true =>
        simp only [Bool.false_eq_true, if_false, if_true]
        cases hins : (Map.insert (forceTimes time a).uid (forceTimes time a)
            { d with tod_map :=
              (todMapInsert d.tod_map tod (forceTimes time a).uid).2 }.uid_map).1 with
        | some w => simp [hins]
        | none => simp [hins, ih]
    | none =>
      simp only [htod]
      cases hins : (Map.insert (forceTimes time a).uid (forceTimes time a)
          d.uid_map).1 with
      | some w => simp [hins]
      | none => simp [hins, ih]

theorem addNews_errors (time : SinceStart) (d : Data) (l : List Alloc) :
    ((addNews time d l).1).errors = d.errors := by
  induction l generalizing d with
  | nil => rfl
  | cons a rest ih =>
    simp only [addNews]
    cases htod : (forceTimes time a).tod with
    | some tod =>
      simp only [htod]
      cases hnew : (todMapInsert d.tod_map tod (forceTimes time a).uid).1 with
      | false => simp
      | true =>
        simp only [Bool.false_eq_true, if_false, if_true]
        cases hins : (Map.insert (forceTimes time a).uid (forceTimes time a)
            { d with tod_map :=
              (todMapInsert d.tod_map tod (forceTimes time a).uid).2 }.uid_map).1 with
        | some w => simp [hins]
        | none => simp [hins, ih]
    | none =>
      simp only [htod]
      cases hins : (Map.insert (forceTimes time a).uid (forceTimes time a)
          d.uid_map).1 with
      | some w => simp [hins]
      | none => simp [hins, ih]

theorem addDeads_current_time (time : SinceStart) (d : Data)
    (l : List (AllocUid × SinceStart)) :
    ((addDeads time d l).1).current_time = d.current_time := by
  induction l generalizing d with
  | nil => rfl
  | cons ud rest ih =>
    obtain ⟨uid, t⟩ := ud
    simp only [addDeads]
    cases hnew : (todMapInsert d.tod_map time uid).1 with
    | false => simp
    | true =>
      simp only [Bool.not_true, Bool.false_eq_true, if_false]
      cases hfind : Map.find? uid
          { d with tod_map := (todMapInsert d.tod_map time uid).2 }.uid_map with
      | none => simp [hfind]
      | some alloc =>
        cases hset : alloc.set_tod time with
        | none => simp [hfind, hset]
        | some alloc' => simp [hfind, hset, ih]

theorem addDeads_errors (time : SinceStart) (d : Data)
    (l : List (AllocUid × SinceStart)) :
    ((addDeads time d l).1).errors = d.errors := by
  induction l generalizing d with
  | nil => rfl
  | cons ud rest ih =>
    obtain ⟨uid, t⟩ := ud
    simp only [addDeads]
    cases hnew : (todMapInsert d.tod_map time uid).1 with
    | false => simp
    | true =>
      simp only [Bool.not_true, Bool.false_eq_true, if_false]
      cases hfind : Map.find? uid
          { d with tod_map := (todMapInsert d.tod_map time uid).2 }.uid_map with
      | none => simp [hfind]
      | some alloc =>
        cases hset : alloc.set_tod time with
        | none => simp [hfind, hset]
        | some alloc' => simp [hfind, hset, ih]

theorem add_diff_current_time (d : Data) (diff : AllocDiff) :
    ((d.add_diff diff).1).current_time = diff.time := by
  unfold Data.add_diff
  rcases hn : addNews diff.time { d with current_time := diff.time } diff.new
    with ⟨d1, e1⟩
  simp only [hn]
  have h1 : d1.current_time = diff.time := by
    have := addNews_current_time diff.time
      { d with current_time := diff.time } diff.new
    rw [hn] at this
    exact this
  cases e1 with
  | some e => simpa using h1
  | none =>
    rcases hd : addDeads diff.time d1 diff.dead with ⟨d2, e2⟩
    simp only [hd]
    have h2 : d2.current_time = diff.time := by
      have := addDeads_current_time diff.time d1 diff.dead
      rw [hd] at this
      rw [this, h1]
    cases e2 with
    | some e => simpa using h2
    | none =>
      by_cases hc : d2.check_invariants
      · simpa [hc] using h2
      · simpa [hc] using h2

theorem add_diff_ok_check (d : Data) (diff : AllocDiff)
    (h : (d.add_diff diff).2 = none) :
    ((d.add_diff diff).1).check_invariants = true := by
  unfold Data.add_diff at h ⊢
  rcases hn : addNews diff.time { d with current_time := diff.time } diff.new
    with ⟨d1, e1⟩
  simp only [hn] at h ⊢
  cases e1 with
  | some e => simp at h
  | none =>
    rcases hd : addDeads diff.time d1 diff.dead with ⟨d2, e2⟩
    simp only [hd] at h ⊢
    cases e2 with
    | some e => simp at h
    | none =>
      by_cases hc : d2.check_invariants
      · simp [hc]
      · simp [hc] at h

theorem mem_addDiffTrace (d : Data) (diffs : List AllocDiff)
    (p : Data × Option AddErr) (hp : p ∈ addDiffTrace d diffs) :
    ∃ (d' : Data) (x : AllocDiff), p = d'.add_diff x := by
  induction diffs generalizing d with
  | nil => simp [addDiffTrace] at hp
  | cons diff rest ih =>
    simp only [addDiffTrace, List.mem_cons] at hp
    rcases hp with hp | hp
    · exact ⟨d, diff, hp⟩
    · exact ih _ hp

theorem addNews_err_collision (time : SinceStart) (d : Data) (l : List Alloc)
    (e : AddErr) (h : (addNews time d l).2 = some e) :
    e = AddErr.collisionNewTod ∨ e = AddErr.collisionNewUid := by
  induction l generalizing d with
  | nil => simp [addNews] at h
  | cons a rest ih =>
    simp only [addNews] at h
    cases htod : (forceTimes time a).tod with
    | some tod =>
      simp only [htod] at h
      cases hnew : (todMapInsert d.tod_map tod (forceTimes time a).uid).1 with
      | false =>
        simp only [hnew, Bool.false_eq_true, if_false] at h
        simp only [Option.some.injEq] at h
        exact Or.inl h.symm
      | true =>
        simp only [hnew, if_true] at h
        cases hins : (Map.insert (forceTimes time a).uid (forceTimes time a)
            { d with tod_map :=
              (todMapInsert d.tod_map tod (forceTimes time a).uid).2 }.uid_map).1 with
        | some w =>
          simp only [hins, Option.isSome_some, if_true,
            Option.some.injEq] at h
          exact Or.inr h.symm
        | none =>
          simp only [hins, Option.isSome_none, Bool.false_eq_true,
            if_false] at h
          exact ih _ h
    | none =>
      simp only [htod] at h
      cases hins : (Map.insert (forceTimes time a).uid (forceTimes time a)
          d.uid_map).1 with
      | some w =>
        simp only [hins, Option.isSome_some, if_true, Option.some.injEq] at h
        exact Or.inr h.symm
      | none =>
        simp only [hins, Option.isSome_none, Bool.false_eq_true,
          if_false] at h
        exact ih _ h

theorem forceTimes_uid (time : SinceStart) (a : Alloc) :
    (forceTimes time a).uid = a.uid := rfl

theorem Map.find?_insert_isSome {β : Type} (u k : Nat) (v : β) (l : Map β)
    (h : (Map.find? u l).isSome = true) :
    (Map.find? u (Map.insert k v l).2).isSome = true := by
  by_cases hu : u = k
  · subst hu
    simp [Map.find?_insert_self]
  · rw [Map.find?_insert_other _ _ _ _ hu]
    exact h

theorem addNews_WF (time : SinceStart) (l : List Alloc) :
    ∀ d : Data, d.uid_map.WF → ((addNews time d l).1).uid_map.WF := by
  induction l with
  | nil => intro d h; exact h
  | cons a rest ih =>
    intro d h
    simp only [addNews]
    cases htod : (forceTimes time a).tod with
    | some tod =>
      simp only [htod]
      cases hnew : (todMapInsert d.tod_map tod (forceTimes time a).uid).1 with
      | false =>
        simp only [hnew, Bool.false_eq_true, if_false]
        exact h
      | true =>
        simp only [hnew, if_true]
        cases hins : (Map.insert (forceTimes time a).uid (forceTimes time a)
            { d with tod_map :=
              (todMapInsert d.tod_map tod (forceTimes time a).uid).2 }.uid_map).1 with
        | some w =>
          simp only [hins, Option.isSome_some, if_true]
          exact Map.insert_WF _ _ _ h
        | none =>
          simp only [hins, Option.isSome_none, Bool.false_eq_true, if_false]
          exact ih _ (Map.insert_WF _ _ _ h)
    | none =>
      simp only [htod]
      cases hins : (Map.insert (forceTimes time a).uid (forceTimes time a)
          d.uid_map).1 with
      | some w =>
        simp only [hins, Option.isSome_some, if_true]
        exact Map.insert_WF _ _ _ h
      | none =>
        simp only [hins, Option.isSome_none, Bool.false_eq_true, if_false]
        exact ih _ (Map.insert_WF _ _ _ h)

theorem addNews_collides (time : SinceStart) (a : Alloc) (l : List Alloc) :
    ∀ d : Data, d.uid_map.WF → a ∈ l →
      (Map.find? a.uid d.uid_map).isSome = true →
      ((addNews time d l).2).isSome = true := by
  induction l with
  | nil =>
    intro d _ hmem _
    simp at hmem
  | cons b rest ih =>
    intro d hWF hmem hfind
    simp only [addNews]
    cases htod : (forceTimes time b).tod with
    | some tod =>
      simp only [htod]
      cases hnew : (todMapInsert d.tod_map tod (forceTimes time b).uid).1 with
      | false =>
        simp [hnew]
      | true =>
        simp only [hnew, if_true]
        cases hins : (Map.insert (forceTimes time b).uid (forceTimes time b)
            { d with tod_map :=
              (todMapInsert d.tod_map tod (forceTimes time b).uid).2 }.uid_map).1 with
        | some w =>
          simp [hins]
        | none =>
          simp only [hins, Option.isSome_none, Bool.false_eq_true, if_false]
          have hins' : (Map.insert (forceTimes time b).uid (forceTimes time b)
              d.uid_map).1 = none := hins
          have hbnone : Map.find? (forceTimes time b).uid d.uid_map = none := by
            rw [← Map.insert_fst (forceTimes time b).uid (forceTimes time b)
              d.uid_map hWF]
            exact hins'
          have hanb : a ∈ rest := by
            rcases List.mem_cons.mp hmem with hab | h'
            · subst hab
              rw [forceTimes_uid] at hbnone
              rw [hbnone] at hfind
              simp at hfind
            · exact h'
          exact ih _ (Map.insert_WF _ _ _ hWF) hanb
            (Map.find?_insert_isSome _ _ _ _ hfind)
    | none =>
      simp only [htod]
      cases hins : (Map.insert (forceTimes time b).uid (forceTimes time b)
          d.uid_map).1 with
      | some w =>
        simp [hins]
      | none =>
        simp only [hins, Option.isSome_none, Bool.false_eq_true, if_false]
        have hbnone : Map.find? (forceTimes time b).uid d.uid_map = none := by
          rw [← Map.insert_fst (forceTimes time b).uid (forceTimes time b)
            d.uid_map hWF]
          exact hins
        have hanb : a ∈ rest := by
          rcases List.mem_cons.mp hmem with hab | h'
          · subst hab
            rw [forceTimes_uid] at hbnone
            rw [hbnone] at hfind
            simp at hfind
          · exact h'
        exact ih _ (Map.insert_WF _ _ _ hWF) hanb
          (Map.find?_insert_isSome _ _ _ _ hfind)

theorem set_tod_eq (a : Alloc) (t : SinceStart) (a' : Alloc)
    (h : a.set_tod t = some a') :
    a.tod = none ∧ a' = { a with tod := some t } := by
  cases ha : a.tod with
  | some x =>
    unfold Alloc.set_tod at h
    rw [ha] at h
    simp at h
  | none =>
    unfold Alloc.set_tod at h
    rw [ha] at h
    simp only [Option.some.injEq] at h
    exact ⟨rfl, h.symm⟩

theorem addNews_ok_preserve (time : SinceStart) (u : Nat) (v : Alloc)
    (l : List Alloc) :
    ∀ d : Data, d.uid_map.WF → Map.find? u d.uid_map = some v →
      (addNews time d l).2 = none →
      Map.find? u ((addNews time d l).1).uid_map = some v := by
  induction l with
  | nil =>
    intro d _ hu _
    exact hu
  | cons b rest ih =>
    intro d hWF hu hok
    simp only [addNews] at hok ⊢
    cases htod : (forceTimes time b).tod with
    | some tod =>
      simp only [htod] at hok ⊢
      cases hnew : (todMapInsert d.tod_map tod (forceTimes time b).uid).1 with
      | false =>
        simp [hnew] at hok
      | true =>
        simp only [hnew, if_true] at hok ⊢
        cases hins : (Map.insert (forceTimes time b).uid (forceTimes time b)
            { d with tod_map :=
              (todMapInsert d.tod_map tod (forceTimes time b).uid).2 }.uid_map).1 with
        | some w =>
          simp [hins] at hok
        | none =>
          simp only [hins, Option.isSome_none, Bool.false_eq_true,
            if_false] at hok ⊢
          have hins' : (Map.insert (forceTimes time b).uid (forceTimes time b)
              d.uid_map).1 = none := hins
          have hbnone : Map.find? (forceTimes time b).uid d.uid_map = none := by
            rw [← Map.insert_fst (forceTimes time b).uid (forceTimes time b)
              d.uid_map hWF]
            exact hins'
          have hne : u ≠ (forceTimes time b).uid := by
            intro hequ
            rw [hequ, hbnone] at hu
            exact Option.noConfusion hu
          refine ih _ (Map.insert_WF _ _ _ hWF) ?_ hok
          rw [Map.find?_insert_other _ _ _ _ hne]
          exact hu
    | none =>
      simp only [htod] at hok ⊢
      cases hins : (Map.insert (forceTimes time b).uid (forceTimes time b)
          d.uid_map).1 with
      | some w =>
        simp [hins] at hok
      | none =>
        simp only [hins, Option.isSome_none, Bool.false_eq_true,
          if_false] at hok ⊢
        have hbnone : Map.find? (forceTimes time b).uid d.uid_map = none := by
          rw [← Map.insert_fst (forceTimes time b).uid (forceTimes time b)
            d.uid_map hWF]
          exact hins
        have hne : u ≠ (forceTimes time b).uid := by
          intro hequ
          rw [hequ, hbnone] at hu
          exact Option.noConfusion hu
        refine ih _ (Map.insert_WF _ _ _ hWF) ?_ hok
        rw [Map.find?_insert_other _ _ _ _ hne]
        exact hu

theorem addNews_ok_stored (time : SinceStart) (a : Alloc) (l : List Alloc) :
    ∀ d : Data, d.uid_map.WF → a ∈ l → (addNews time d l).2 = none →
      Map.find? a.uid ((addNews time d l).1).uid_map
        = some (forceTimes time a) := by
  induction l with
  | nil =>
    intro d _ hmem _
    simp at hmem
  | cons b rest ih =>
    intro d hWF hmem hok
    simp only [addNews] at hok ⊢
    cases htod : (forceTimes time b).tod with
    | some tod =>
      simp only [htod] at hok ⊢
      cases hnew : (todMapInsert d.tod_map tod (forceTimes time b).uid).1 with
      | false =>
        simp [hnew] at hok
      | true =>
        simp only [hnew, if_true] at hok ⊢
        cases hins : (Map.insert (forceTimes time b).uid (forceTimes time b)
            { d with tod_map :=
              (todMapInsert d.tod_map tod (forceTimes time b).uid).2 }.uid_map).1 with
        | some w =>
          simp [hins] at hok
        | none =>
          simp only [hins, Option.isSome_none, Bool.false_eq_true,
            if_false] at hok ⊢
          rcases List.mem_cons.mp hmem with hab | hmem'
          · subst hab
            refine addNews_ok_preserve time _ _ rest _
              (Map.insert_WF _ _ _ hWF) ?_ hok
            rw [forceTimes_uid]
            have : Map.find? (forceTimes time a).uid
                (Map.insert (forceTimes time a).uid (forceTimes time a)
                  d.uid_map).2 = some (forceTimes time a) :=
              Map.find?_insert_self _ _ _
            rw [forceTimes_uid] at this
            exact this
          · exact ih _ (Map.insert_WF _ _ _ hWF) hmem' hok
    | none =>
      simp only [htod] at hok ⊢
      cases hins : (Map.insert (forceTimes time b).uid (forceTimes time b)
          d.uid_map).1 with
      | some w =>
        simp [hins] at hok
      | none =>
        simp only [hins, Option.isSome_none, Bool.false_eq_true,
          if_false] at hok ⊢
        rcases List.mem_cons.mp hmem with hab | hmem'
        · subst hab
          refine addNews_ok_preserve time _ _ rest _
            (Map.insert_WF _ _ _ hWF) ?_ hok
          rw [forceTimes_uid]
          have : Map.find? (forceTimes time a).uid
              (Map.insert (forceTimes time a).uid (forceTimes time a)
                d.uid_map).2 = some (forceTimes time a) :=
            Map.find?_insert_self _ _ _
          rw [forceTimes_uid] at this
          exact this
        · exact ih _ (Map.insert_WF _ _ _ hWF) hmem' hok

theorem addDeads_ok_track (time : SinceStart) (u : Nat)
    (l : List (AllocUid × SinceStart)) :
    ∀ (d : Data) (v : Alloc), Map.find? u d.uid_map = some v →
      (addDeads time d l).2 = none →
      ∃ v', Map.find? u ((addDeads time d l).1).uid_map = some v' ∧
        v'.toc = v.toc ∧ (v' = v ∨ v'.tod = some time) := by
  induction l with
  | nil =>
    intro d v hu _
    exact ⟨v, hu, rfl, Or.inl rfl⟩
  | cons ud rest ih =>
    obtain ⟨uid, t⟩ := ud
    intro d v hu hok
    simp only [addDeads] at hok ⊢
    cases hnew : (todMapInsert d.tod_map time uid).1 with
    | false =>
      simp [hnew] at hok
    | true =>
      simp only [hnew, Bool.not_true, Bool.false_eq_true, if_false] at hok ⊢
      cases hfind : Map.find? uid
          { d with tod_map := (todMapInsert d.tod_map time uid).2 }.uid_map with
      | none =>
        simp [hfind] at hok
      | some alloc =>
        simp only [hfind] at hok ⊢
        cases hset : alloc.set_tod time with
        | none =>
          simp [hset] at hok
        | some alloc' =>
          simp only [hset] at hok ⊢
          obtain ⟨halloc, halloc'⟩ := set_tod_eq alloc time alloc' hset
          by_cases hequ : u = uid
          · subst hequ
            have hva : alloc = v := by
              have hfind' : Map.find? u d.uid_map = some alloc := hfind
              rw [hfind'] at hu
              exact Option.some.inj hu
            obtain ⟨v'', hv''⟩ := ih _ alloc'
              (Map.find?_insert_self u alloc' _) hok
            refine ⟨v'', hv''.1, ?_, Or.inr ?_⟩
            · rw [hv''.2.1, halloc', hva]
            · rcases hv''.2.2 with hv | hv
              · rw [hv, halloc']
              · exact hv
          · exact ih _ v (by
              rw [Map.find?_insert_other _ _ _ _ hequ]
              exact hu) hok

theorem add_diff_ok_decomp (d : Data) (diff : AllocDiff)
    (h : (d.add_diff diff).2 = none) :
    ∃ d1 d2, addNews diff.time { d with current_time := diff.time } diff.new
        = (d1, none) ∧
      addDeads diff.time d1 diff.dead = (d2, none) ∧
      (d.add_diff diff).1 = d2 := by
  unfold Data.add_diff at h ⊢
  rcases hn : addNews diff.time { d with current_time := diff.time } diff.new
    with ⟨d1, e1⟩
  simp only [hn] at h ⊢
  cases e1 with
  | some e => simp at h
  | none =>
    rcases hd : addDeads diff.time d1 diff.dead with ⟨d2, e2⟩
    simp only [hd] at h ⊢
    cases e2 with
    | some e => simp at h
    | none =>
      by_cases hc : d2.check_invariants
      · exact ⟨d1, d2, rfl, hd, by simp [hc]⟩
      · simp [hc] at h

theorem add_diff_err_of_addNews (d : Data) (diff : AllocDiff) (e : AddErr)
    (h : (addNews diff.time { d with current_time := diff.time } diff.new).2
      = some e) :
    (d.add_diff diff).2 = some e := by
  unfold Data.add_diff
  rcases hn : addNews diff.time { d with current_time := diff.time } diff.new
    with ⟨d1, e1⟩
  rw [hn] at h
  simp only at h
  subst h
  simp [hn]

theorem forceTimes_tod (time : SinceStart) (a : Alloc) (x : SinceStart)
    (h : (forceTimes time a).tod = some x) : x = time := by
  have h' : a.tod.map (fun _ => time) = some x := h
  cases ha : a.tod with
  | none =>
    rw [ha] at h'
    exact Option.noConfusion h'
  | some y =>
    rw [ha] at h'
    exact (Option.some.inj h').symm

theorem iter_new_since_spec (d : Data) (t : SinceStart)
    (h : d.tocs.Pairwise (· ≤ ·)) :
    d.iter_new_since t
        = ((d.uid_map.map Prod.snd).filter fun a => decide (t < a.toc)).reverse
      ∧ (d.iter_new_since t).Pairwise fun a b => b.toc ≤ a.toc := by
  have h' : (d.uid_map.map fun kv : Nat × Alloc => kv.2.toc).Pairwise
      (· ≤ ·) := h
  have hm : (d.uid_map.map Prod.snd).Pairwise fun a b => a.toc ≤ b.toc := by
    rw [List.pairwise_map]
    exact List.pairwise_map.mp h'
  have hrev : (d.uid_map.map Prod.snd).reverse.Pairwise
      fun a b => b.toc ≤ a.toc :=
    List.pairwise_reverse.mpr hm
  have heq : d.iter_new_since t
      = ((d.uid_map.map Prod.snd).reverse.takeWhile
          fun a => decide (t < a.toc)) := by
    unfold Data.iter_new_since
    rw [iterNewSinceAux_eq_takeWhile, List.map_reverse]
  constructor
  · rw [heq, takeWhile_eq_filter_of_antitone Alloc.toc t _ hrev,
      List.filter_reverse]
  · rw [heq, takeWhile_eq_filter_of_antitone Alloc.toc t _ hrev]
    exact hrev.filter _

theorem iter_dead_since_spec (d : Data) (t : SinceStart)
    (h : d.tod_map.WF) :
    d.iter_dead_since t
        = ((d.tod_map.filter fun kv => decide (t < kv.1)).map
            fun kv => (kv.2, kv.1)).reverse
      ∧ (d.iter_dead_since t).Pairwise fun a b => b.2 < a.2 := by
  have h' : (d.tod_map.map Prod.fst).Pairwise (· < ·) := h
  have hm : d.tod_map.Pairwise fun a b : Nat × AllocUidSet => a.1 < b.1 := by
    exact List.pairwise_map.mp h'
  have hrev : d.tod_map.reverse.Pairwise
      fun a b : Nat × AllocUidSet => b.1 ≤ a.1 :=
    List.pairwise_reverse.mpr (hm.imp fun hab => Nat.le_of_lt hab)
  have heq : d.iter_dead_since t
      = ((d.tod_map.reverse.takeWhile fun kv => decide (t < kv.1)).map
          fun kv => (kv.2, kv.1)) := by
    unfold Data.iter_dead_since
    rw [iterDeadSinceAux_eq_takeWhile]
  constructor
  · rw [heq, takeWhile_eq_filter_of_antitone Prod.fst t _ hrev,
      List.filter_reverse, List.map_reverse]
  · rw [heq, takeWhile_eq_filter_of_antitone Prod.fst t _ hrev]
    rw [List.pairwise_map]
    have hf : (d.tod_map.reverse.filter fun kv => decide (t < kv.1)).Pairwise
        fun a b : Nat × AllocUidSet => b.1 < a.1 := by
      refine List.Pairwise.filter _ ?_
      exact List.pairwise_reverse.mpr hm
    exact hf

theorem receive_messages_ok_iff (frames : List Frame) :
    ∀ fc : FromClient,
      (receive_messages fc frames).isOk = recvReturnsControl frames := by
  induction frames with
  | nil => intro fc; rfl
  | cons f rest ih =>
    intro fc
    cases f with
    | text m =>
      cases m with
      | none => rfl
      | some v =>
        show (receive_messages (fc.push v) rest).isOk = recvReturnsControl rest
        exact ih _
    | binary m =>
      cases m with
      | none => rfl
      | some v =>
        show (receive_messages (fc.push v) rest).isOk = recvReturnsControl rest
        exact ih _
    | pong => rfl
    | close cd => rfl
    | ping => rfl
    | transportFailure => rfl

/-! The claims. -/

/-- C1, counterexample to the claim as stated: in the store holding uid 1 with
toc 1, a diff at time 2 carrying a fresh allocation with the same uid 1 makes
`add_diff` fail with a collision error, but the previously stored record is
NOT left unchanged: `uid_map` now binds uid 1 to the new record (toc 2),
because `Map::insert` overwrites before the error is raised. -/
theorem claim1_counterexample :
    Map.find? 1 dupStore.uid_map = some ⟨1, 1, none⟩ ∧
      (dupStore.add_diff ⟨2, [⟨1, 7, none⟩], []⟩).2
        = some AddErr.collisionNewUid ∧
      AddErr.collisionNewUid.isCollision = true ∧
      Map.find? 1 ((dupStore.add_diff ⟨2, [⟨1, 7, none⟩], []⟩).1).uid_map
        = some ⟨1, 2, none⟩ ∧
      (some (⟨1, 2, none⟩ : Alloc) ≠ some (⟨1, 1, none⟩ : Alloc)) := by
  decide

/-- C1, amended: for every well-formed store and every diff carrying a new
allocation whose uid is already bound in `uid_map`, `add_diff` fails with a
collision error (the overwrite of the prior record, shown by the
counterexample, is not silent). -/
theorem claim1_theorem (d : Data) (diff : AllocDiff) (a : Alloc)
    (hWF : d.uid_map.WF) (hmem : a ∈ diff.new)
    (hdup : (Map.find? a.uid d.uid_map).isSome = true) :
    ∃ e, (d.add_diff diff).2 = some e ∧ e.isCollision = true := by
  have h1 : ((addNews diff.time { d with current_time := diff.time }
      diff.new).2).isSome = true :=
    addNews_collides diff.time a diff.new _ hWF hmem hdup
  obtain ⟨e, he⟩ := Option.isSome_iff_exists.mp h1
  refine ⟨e, add_diff_err_of_addNews d diff e he, ?_⟩
  rcases addNews_err_collision _ _ _ _ he with h | h <;> rw [h] <;> rfl

/-- C1, witness: the amended theorem applied at the counterexample's input. -/
theorem claim1_witness :
    dupStore.uid_map.WF ∧
      (⟨1, 7, none⟩ : Alloc) ∈ (⟨2, [⟨1, 7, none⟩], []⟩ : AllocDiff).new ∧
      (Map.find? (⟨1, 7, none⟩ : Alloc).uid dupStore.uid_map).isSome = true ∧
      ∃ e, (dupStore.add_diff ⟨2, [⟨1, 7, none⟩], []⟩).2 = some e ∧
        e.isCollision = true :=
  ⟨by decide, by decide, by decide,
    claim1_theorem dupStore ⟨2, [⟨1, 7, none⟩], []⟩ ⟨1, 7, none⟩
      (by decide) (by decide) (by decide)⟩

/-- C2, counterexample to the claim as stated: starting from the fresh store,
the two diffs at times 5 then 3 (each adding one fresh allocation) trigger no
collision error at any call — the second call fails only with the
invariant-check error, which is not a collision — yet after the second call
the `toc` values in `uid_map` iteration order are `[5, 3]`, which is not
non-decreasing. -/
theorem claim2_counterexample :
    (∀ p ∈ addDiffTrace Data.new
        [⟨5, [⟨1, 0, none⟩], []⟩, ⟨3, [⟨2, 0, none⟩], []⟩],
      p.2.all (fun e => !e.isCollision) = true) ∧
    ¬ (∀ p ∈ addDiffTrace Data.new
        [⟨5, [⟨1, 0, none⟩], []⟩, ⟨3, [⟨2, 0, none⟩], []⟩],
      p.1.tocs.Pairwise (· ≤ ·)) := by
  decide

/-- C2, amended: for every starting store and every sequence of `add_diff`
calls in which no call returns any error (collision, lookup, or the
debug-build invariant-check error), the `toc` values of `uid_map` in
iteration order are non-decreasing after every call of the sequence. -/
theorem claim2_theorem (d0 : Data) (diffs : List AllocDiff)
    (h : ∀ p ∈ addDiffTrace d0 diffs, p.2 = none) :
    ∀ p ∈ addDiffTrace d0 diffs, p.1.tocs.Pairwise (· ≤ ·) := by
  intro p hp
  obtain ⟨d', x, hpx⟩ := mem_addDiffTrace d0 diffs p hp
  have hok := h p hp
  rw [hpx] at hok ⊢
  exact (check_invariants_iff _).mp (add_diff_ok_check d' x hok)

/-- C2, witness: the amended theorem applied to an error-free two-diff
sequence with increasing times, specialized to the state after the first
call. -/
theorem claim2_witness :
    (Data.new.add_diff ⟨1, [⟨1, 0, none⟩], []⟩).1.tocs.Pairwise (· ≤ ·) :=
  claim2_theorem Data.new
    [⟨1, [⟨1, 0, none⟩], []⟩, ⟨2, [⟨2, 0, none⟩], []⟩] (by decide)
    (Data.new.add_diff ⟨1, [⟨1, 0, none⟩], []⟩) (by decide)

/-- C3, counterexample to the claim as stated: a death notification for the
never-inserted uid 7 on the fresh store fails with the lookup error, but the
store is NOT left completely unchanged: `current_time` is set to the diff's
time 5 and `tod_map` records uid 7 under time 5 before the failure. -/
theorem claim3_counterexample :
    (Data.new.add_diff ⟨5, [], [(7, 3)]⟩).2 = some AddErr.unknownDead ∧
      AddErr.unknownDead.isLookup = true ∧
      Data.new.current_time = 0 ∧
      (Data.new.add_diff ⟨5, [], [(7, 3)]⟩).1.current_time = 5 ∧
      Data.new.tod_map = [] ∧
      (Data.new.add_diff ⟨5, [], [(7, 3)]⟩).1.tod_map = [(5, [7])] := by
  decide

/-- C3, amended: for every store and every diff consisting of exactly one
death notification for a uid absent from `uid_map` (and not already recorded
in `tod_map` at the diff's time), `add_diff` fails with the lookup error and
leaves `uid_map` unchanged, but `current_time` is set to the diff's time and
the uid is registered in `tod_map` under the diff's time before the
failure. -/
theorem claim3_theorem (d : Data) (diff : AllocDiff) (uid : AllocUid)
    (x : SinceStart) (hnew : diff.new = []) (hdead : diff.dead = [(uid, x)])
    (hu : Map.find? uid d.uid_map = none)
    (hs : uid ∉ (Map.find? diff.time d.tod_map).getD []) :
    (d.add_diff diff).2 = some AddErr.unknownDead ∧
      (d.add_diff diff).1.uid_map = d.uid_map ∧
      (d.add_diff diff).1.current_time = diff.time ∧
      uid ∈ (Map.find? diff.time (d.add_diff diff).1.tod_map).getD [] := by
  unfold Data.add_diff
  rw [hnew, hdead]
  simp only [addNews, addDeads, todMapInsert, AllocUidSet.insert, hs,
    if_false, Bool.not_true, Bool.not_false, hu]
  refine ⟨rfl, rfl, rfl, ?_⟩
  simp only [Bool.false_eq_true, if_false]
  rw [Map.find?_insert_self]
  simp

/-- C3, witness: the amended theorem applied at the counterexample's input. -/
theorem claim3_witness :
    (Data.new.add_diff ⟨5, [], [(7, 3)]⟩).2 = some AddErr.unknownDead ∧
      (Data.new.add_diff ⟨5, [], [(7, 3)]⟩).1.uid_map = Data.new.uid_map ∧
      (Data.new.add_diff ⟨5, [], [(7, 3)]⟩).1.current_time
        = (⟨5, [], [(7, 3)]⟩ : AllocDiff).time ∧
      7 ∈ (Map.find? (⟨5, [], [(7, 3)]⟩ : AllocDiff).time
        (Data.new.add_diff ⟨5, [], [(7, 3)]⟩).1.tod_map).getD [] :=
  claim3_theorem Data.new ⟨5, [], [(7, 3)]⟩ 7 3 rfl rfl (by decide)
    (by decide)

/-- C4: for every store whose `tod_map` satisfies the map's key-sortedness
representation invariant and whose `uid_map` satisfies the ordering invariant
(tocs non-decreasing in iteration order), `iter_new_since t` visits exactly
the allocations with `toc > t` in descending (non-increasing) `toc` order,
and `iter_dead_since t` visits exactly the `tod_map` entries with timestamp
`> t`, in strictly descending timestamp order, each visit delivering the full
uid set together with its timestamp. -/
theorem claim4_theorem (d : Data) (t : SinceStart)
    (hWF : d.tod_map.WF) (horder : d.tocs.Pairwise (· ≤ ·)) :
    d.iter_new_since t
        = ((d.uid_map.map Prod.snd).filter fun a => decide (t < a.toc)).reverse
      ∧ (d.iter_new_since t).Pairwise (fun a b => b.toc ≤ a.toc)
      ∧ d.iter_dead_since t
        = ((d.tod_map.filter fun kv => decide (t < kv.1)).map
            fun kv => (kv.2, kv.1)).reverse
      ∧ (d.iter_dead_since t).Pairwise (fun a b => b.2 < a.2) := by
  obtain ⟨h1, h2⟩ := iter_new_since_spec d t horder
  obtain ⟨h3, h4⟩ := iter_dead_since_spec d t hWF
  exact ⟨h1, h2, h3, h4⟩

/-- C4, witness: the theorem applied to the concrete sample store at
time 3. -/
theorem claim4_witness :
    sampleStore.tod_map.WF ∧ sampleStore.tocs.Pairwise (· ≤ ·) ∧
      (sampleStore.iter_new_since 3
          = ((sampleStore.uid_map.map Prod.snd).filter
              fun a => decide (3 < a.toc)).reverse
        ∧ (sampleStore.iter_new_since 3).Pairwise (fun a b => b.toc ≤ a.toc)
        ∧ sampleStore.iter_dead_since 3
          = ((sampleStore.tod_map.filter fun kv => decide (3 < kv.1)).map
              fun kv => (kv.2, kv.1)).reverse
        ∧ (sampleStore.iter_dead_since 3).Pairwise (fun a b => b.2 < a.2)) :=
  ⟨by decide, by decide, claim4_theorem sampleStore 3 (by decide) (by decide)⟩

/-- C5: the claim is right and the code is wrong. `set_last_frame` is called
once before the run loop and never again after a render, contradicting the
source's own documentation of `frame_span` ("Minimum time between two
rendering steps"). With `last_frame = 0` and the clock reading 0 at the first
throttle point and 1001 at the second (1 ms after the first send at 1000),
the two sends happen at 1000 and 1001: a 1 ms gap, far below the 1000 ms
frame interval. -/
theorem claim5_theorem :
    renderTimes 0 [0, 1001] = [1000, 1001] ∧ 1000 ≤ 1001 ∧
      1001 - 1000 < frame_span := by
  decide

/-- C6: for every inbound buffer state and every finite stream of frames the
socket delivers, the receive step returns control to the run loop (returns
without a fatal error) exactly when, scanning past successfully decoded data
frames, a render-now pong arrives, a close signal arrives, or the available
input is exhausted — the condition expressed by `recvReturnsControl`,
written from the spec's words. -/
theorem claim6_theorem (fc : FromClient) (frames : List Frame) :
    (receive_messages fc frames).isOk = recvReturnsControl frames :=
  receive_messages_ok_iff frames fc

/-- C7: for every well-formed store and every diff at time `T` carrying a new
allocation whose embedded `toc` differs from `T` (and whose embedded `tod`,
if present, differs from `T`), after a successful `add_diff` the stored
record's `toc` equals `T` and its `tod`, if present, equals `T`: the diff's
timestamp overwrites the embedded ones. -/
theorem claim7_theorem (d : Data) (diff : AllocDiff) (a : Alloc)
    (hWF : d.uid_map.WF) (hmem : a ∈ diff.new)
    (_htoc : a.toc ≠ diff.time)
    (_htod : ∀ x, a.tod = some x → x ≠ diff.time)
    (hok : (d.add_diff diff).2 = none) :
    ∃ a', Map.find? a.uid ((d.add_diff diff).1).uid_map = some a' ∧
      a'.toc = diff.time ∧ ∀ x, a'.tod = some x → x = diff.time := by
  obtain ⟨d1, d2, hn, hd, hfin⟩ := add_diff_ok_decomp d diff hok
  have hWF1 : ({ d with current_time := diff.time } : Data).uid_map.WF := hWF
  have hstored := addNews_ok_stored diff.time a diff.new
    { d with current_time := diff.time } hWF1 hmem (by rw [hn])
  rw [hn] at hstored
  obtain ⟨v', hv'1, hv'2, hv'3⟩ := addDeads_ok_track diff.time a.uid diff.dead
    d1 (forceTimes diff.time a) hstored (by rw [hd])
  rw [hd] at hv'1
  refine ⟨v', by rw [hfin]; exact hv'1, ?_, ?_⟩
  · rw [hv'2]
    rfl
  · intro x hx
    rcases hv'3 with hv | hv
    · rw [hv] at hx
      exact forceTimes_tod diff.time a x hx
    · rw [hv] at hx
      exact (Option.some.inj hx).symm

/-- C7, witness: the theorem applied to the fresh store and a diff at time 5
carrying an allocation with embedded toc 3 and embedded tod 2; the stored
record ends up with toc 5 and tod 5. -/
theorem claim7_witness :
    Data.new.uid_map.WF ∧
      (⟨1, 3, some 2⟩ : Alloc) ∈ (⟨5, [⟨1, 3, some 2⟩], []⟩ : AllocDiff).new ∧
      (Data.new.add_diff ⟨5, [⟨1, 3, some 2⟩], []⟩).2 = none ∧
      ∃ a', Map.find? (⟨1, 3, some 2⟩ : Alloc).uid
          ((Data.new.add_diff ⟨5, [⟨1, 3, some 2⟩], []⟩).1).uid_map = some a' ∧
        a'.toc = (⟨5, [⟨1, 3, some 2⟩], []⟩ : AllocDiff).time ∧
        ∀ x, a'.tod = some x → x = (⟨5, [⟨1, 3, some 2⟩], []⟩ : AllocDiff).time :=
  ⟨by decide, by decide, by decide,
    claim7_theorem Data.new ⟨5, [⟨1, 3, some 2⟩], []⟩ ⟨1, 3, some 2⟩
      (by decide) (by decide) (by decide)
      (by
        intro x hx
        simp at hx
        subst hx
        decide)
      (by decide)⟩

/-- C8: for every store in which a uid's record already carries a time of
death, a diff consisting of exactly one death notification for that same uid
(at the same or a different diff timestamp) makes `add_diff` fail with a
collision error, and the record — in particular the `tod` stored by the
first registration — is preserved unchanged in `uid_map`. -/
theorem claim8_theorem (d : Data) (diff : AllocDiff) (uid : AllocUid)
    (x t0 : SinceStart) (a : Alloc)
    (hnew : diff.new = []) (hdead : diff.dead = [(uid, x)])
    (hu : Map.find? uid d.uid_map = some a) (ht0 : a.tod = some t0) :
    ∃ e, (d.add_diff diff).2 = some e ∧ e.isCollision = true ∧
      Map.find? uid ((d.add_diff diff).1).uid_map = some a := by
  unfold Data.add_diff
  rw [hnew, hdead]
  simp only [addNews, addDeads, todMapInsert, AllocUidSet.insert]
  by_cases hmem : uid ∈ (Map.find? diff.time d.tod_map).getD []
  · refine ⟨AddErr.collisionDead, ?_, rfl, ?_⟩
    · simp only [hmem, if_true, Bool.not_false]
    · simp only [hmem, if_true, Bool.not_false]
      exact hu
  · refine ⟨AddErr.todAlreadySet, ?_, rfl, ?_⟩
    · simp only [hmem, if_false, Bool.not_true, Bool.false_eq_true,
        Bool.not_false, hu, Alloc.set_tod, ht0]
    · simp only [hmem, if_false, Bool.not_true, Bool.false_eq_true,
        Bool.not_false, hu, Alloc.set_tod, ht0]

/-- C8, witness: the theorem applied to the concrete store whose allocation 1
died at time 4, with a second death notification for uid 1 at time 4. -/
theorem claim8_witness :
    Map.find? 1 deadStore.uid_map = some ⟨1, 1, some 4⟩ ∧
      (⟨1, 1, some 4⟩ : Alloc).tod = some 4 ∧
      ∃ e, (deadStore.add_diff ⟨4, [], [(1, 9)]⟩).2 = some e ∧
        e.isCollision = true ∧
        Map.find? 1 ((deadStore.add_diff ⟨4, [], [(1, 9)]⟩).1).uid_map
          = some ⟨1, 1, some 4⟩ :=
  ⟨by decide, by decide,
    claim8_theorem deadStore ⟨4, [], [(1, 9)]⟩ 1 9 4 ⟨1, 1, some 4⟩
      rfl rfl (by decide) rfl⟩

/-- C9: for every store and every init record, `reset` sets `init` to the new
record, empties both maps, zeroes `current_time`, and leaves the error log
unchanged; as a total function it has no failure mode. -/
theorem claim9_theorem (d : Data) (i : AllocInit) :
    (d.reset i).init = some i ∧ (d.reset i).uid_map = Map.empty ∧
      (d.reset i).tod_map = Map.empty ∧ (d.reset i).current_time = 0 ∧
      (d.reset i).errors = d.errors :=
  ⟨rfl, rfl, rfl, rfl, rfl⟩

/-- C10: for every store and every diff, after `add_diff` — whether it
succeeds or fails with any error — the store's `current_time` equals the
diff's time: the assignment happens before any validation of the diff's
entries. -/
theorem claim10_theorem (d : Data) (diff : AllocDiff) :
    ((d.add_diff diff).1).current_time = diff.time :=
  add_diff_current_time d diff
